import Mathlib

/-!
# Infinite-WIKI: shallow embedding and verification

A shallow embedding of the interaction logic of the Infinite-WIKI browser
client (the App component bundled with src/components/SearchBar.tsx, plus
the SearchBar form handler).  JavaScript strings are modelled as Lean
Strings (lists of characters); the asynchronous stream of definition or
translation chunks is modelled as the list of chunks delivered, followed by
an optional thrown error message; React state updates are modelled as
functional updates of an explicit AppState record.  Theme handling and
local-storage persistence are outside the scope of the claims and are not
modelled.
-/

/-! ## JavaScript string primitives -/

/-- JS `s.startsWith(pre)`. -/
def jsStartsWith (s pre : String) : Bool :=
  pre.data.isPrefixOf s.data

/-- JS `s.toLowerCase()`: lower-case every character. -/
def jsToLower (s : String) : String :=
  String.mk (s.data.map Char.toLower)

/-- JS `s.trim()`: drop whitespace from both ends. -/
def jsTrim (s : String) : String :=
  String.mk (((s.data.dropWhile Char.isWhitespace).reverse.dropWhile
      Char.isWhitespace).reverse)

/-- Replace the first occurrence of `pat` in a character list by `repl`
(JS `String.prototype.replace` with a string pattern). -/
def replaceFirstList (pat repl : List Char) : List Char → List Char
  | [] => []
  | c :: rest =>
    if pat.isPrefixOf (c :: rest) then repl ++ (c :: rest).drop pat.length
    else c :: replaceFirstList pat repl rest

/-- JS `s.replace(pat, repl)`: only the first occurrence is replaced. -/
def jsReplaceFirst (s pat repl : String) : String :=
  String.mk (replaceFirstList pat.data repl.data s.data)

/-- Insertion-ordered deduplication, as produced by JS `[...new Set(l)]`. -/
def jsSetDedupAux (seen : List String) : List String → List String
  | [] => []
  | a :: t =>
    if a ∈ seen then jsSetDedupAux seen t
    else a :: jsSetDedupAux (a :: seen) t

/-- Split a character list at every newline character. -/
def splitLinesAux : List Char → List (List Char)
  | [] => [[]]
  | c :: rest =>
    let r := splitLinesAux rest
    if c = '\n' then [] :: r
    else (c :: r.headD []) :: r.tail

/-- The newline-separated lines of a string (JS `s.split('\n')`). -/
def splitLines (s : String) : List String :=
  (splitLinesAux s.data).map String.mk

/-! ## Data model -/

/-- The structured result of art generation: a single string field. -/
structure AsciiArtData where
  art : String
deriving DecidableEq

/-- The React state of the App component (theme omitted: no claim
concerns it). -/
structure AppState where
  currentTopic : String
  content : String
  isLoading : Bool
  error : Option String
  asciiArt : Option AsciiArtData
  generationTime : Option Nat
  history : List String
  isTranslating : Bool
  translationError : Option String
  translatedContent : Option String
  targetLanguage : String
  translatedLanguage : Option String
deriving DecidableEq

/-- The initial state of the App component (useState initialisers). -/
def initialState : AppState :=
  { currentTopic := "Hypertext"
    content := ""
    isLoading := true
    error := none
    asciiArt := none
    generationTime := none
    history := []
    isTranslating := false
    translationError := none
    translatedContent := none
    targetLanguage := "Spanish"
    translatedLanguage := none }

/-! ## Fallback art -/

/-- The displayable label used by createFallbackArt: the topic, truncated
to its first 17 characters plus an ellipsis when it is longer than 20
characters (JS `topic.length > 20 ? topic.substring(0, 17) + '...' : topic`). -/
def displayableTopic (topic : String) : String :=
  if topic.length > 20 then String.mk (topic.data.take 17) ++ "..." else topic

/-- `createFallbackArt`: a simple ASCII bounding box around the
displayable topic label. -/
def createFallbackArt (topic : String) : AsciiArtData :=
  let paddedTopic := " " ++ displayableTopic topic ++ " "
  let topBorder := "┌" ++ String.mk (List.replicate paddedTopic.length '─') ++ "┐"
  let middle := "│" ++ paddedTopic ++ "│"
  let bottomBorder := "└" ++ String.mk (List.replicate paddedTopic.length '─') ++ "┘"
  ⟨topBorder ++ "\n" ++ middle ++ "\n" ++ bottomBorder⟩

/-! ## Curated random-word list -/

/-- The curated words and phrases for the random-button fallback. -/
def PREDEFINED_WORDS : List String :=
  ["Balance", "Harmony", "Discord", "Unity", "Fragmentation", "Clarity",
   "Ambiguity", "Presence", "Absence", "Creation", "Destruction", "Light",
   "Shadow", "Beginning", "Ending", "Rising", "Falling", "Connection",
   "Isolation", "Hope", "Despair",
   "Order and chaos", "Light and shadow", "Sound and silence",
   "Form and formlessness", "Being and nonbeing", "Presence and absence",
   "Motion and stillness", "Unity and multiplicity", "Finite and infinite",
   "Sacred and profane", "Memory and forgetting", "Question and answer",
   "Search and discovery", "Journey and destination", "Dream and reality",
   "Time and eternity", "Self and other", "Known and unknown",
   "Spoken and unspoken", "Visible and invisible",
   "Zigzag", "Waves", "Spiral", "Bounce", "Slant", "Drip", "Stretch",
   "Squeeze", "Float", "Fall", "Spin", "Melt", "Rise", "Twist", "Explode",
   "Stack", "Mirror", "Echo", "Vibrate",
   "Gravity", "Friction", "Momentum", "Inertia", "Turbulence", "Pressure",
   "Tension", "Oscillate", "Fractal", "Quantum", "Entropy", "Vortex",
   "Resonance", "Equilibrium", "Centrifuge", "Elastic", "Viscous",
   "Refract", "Diffuse", "Cascade", "Levitate", "Magnetize", "Polarize",
   "Accelerate", "Compress", "Undulate",
   "Liminal", "Ephemeral", "Paradox", "Zeitgeist", "Metamorphosis",
   "Synesthesia", "Recursion", "Emergence", "Dialectic", "Apophenia",
   "Limbo", "Flux", "Sublime", "Uncanny", "Palimpsest", "Chimera", "Void",
   "Transcend", "Ineffable", "Qualia", "Gestalt", "Simulacra", "Abyssal",
   "Existential", "Nihilism", "Solipsism", "Phenomenology", "Hermeneutics",
   "Deconstruction", "Postmodern", "Absurdism", "Catharsis", "Epiphany",
   "Melancholy", "Nostalgia", "Longing", "Reverie", "Pathos", "Ethos",
   "Logos", "Mythos", "Anamnesis", "Intertextuality", "Metafiction",
   "Stream", "Lacuna", "Caesura", "Enjambment"]

/-- `UNIQUE_WORDS = [...new Set(PREDEFINED_WORDS)]`. -/
def UNIQUE_WORDS : List String :=
  jsSetDedupAux [] PREDEFINED_WORDS

/-! ## Definition / translation stream consumption

Both the definition loop and the translation loop accumulate chunks until
the stream ends, a chunk beginning with the literal prefix stops the loop
by throwing, or the stream itself throws.  `consumeChunks acc chunks`
returns the accumulated text together with the error chunk that aborted
accumulation, if any. -/

/-- Accumulate stream chunks; a chunk starting with "Error:" raises that
chunk as a terminal failure and aborts accumulation. -/
def consumeChunks : String → List String → String × Option String
  | acc, [] => (acc, none)
  | acc, c :: rest =>
    if jsStartsWith c "Error:" then (acc, some c)
    else consumeChunks (acc ++ c) rest

/-! ## Topic fetch orchestration -/

/-- The history update performed after a successful definition fetch:
skip when the last entry equals the topic case-insensitively, otherwise
append and keep only the most recent 15 entries. -/
def pushHistory (topic : String) (prev : List String) : List String :=
  if prev.getLast?.map jsToLower = some (jsToLower topic) then prev
  else
    let newHistory := prev ++ [topic]
    if newHistory.length > 15 then newHistory.drop (newHistory.length - 15)
    else newHistory

/-- The `finally` block of the definition fetch (uncancelled case):
record the elapsed time, clear the loading flag, and on success push the
topic onto the history. -/
def finalizeFetch (topic : String) (success : Bool) (elapsed : Nat)
    (s : AppState) : AppState :=
  { s with generationTime := some elapsed
           isLoading := false
           history := if success then pushHistory topic s.history else s.history }

/-- The state writes performed at the start of `fetchContentAndArt`
("Set initial state for a clean page load"). -/
def fetchReset (s : AppState) : AppState :=
  { s with isLoading := true
           error := none
           content := ""
           asciiArt := none
           generationTime := none
           translatedContent := none
           translationError := none
           isTranslating := false
           translatedLanguage := none }

/-- The definition-streaming part of `fetchContentAndArt` (uncancelled):
consume the chunks; an error chunk or a stream-level throw surfaces the
message and discards the accumulated content; otherwise the accumulated
content is displayed and, when non-empty, the fetch counts as a success. -/
def runDefinition (topic : String) (chunks : List String)
    (streamErr : Option String) (elapsed : Nat) (s : AppState) : AppState :=
  match consumeChunks "" chunks with
  | (_, some errChunk) =>
      finalizeFetch topic false elapsed
        { s with error := some errChunk, content := "" }
  | (acc, none) =>
      match streamErr with
      | some msg =>
          finalizeFetch topic false elapsed
            { s with error := some msg, content := "" }
      | none =>
          finalizeFetch topic (acc != "") elapsed { s with content := acc }

/-- `fetchContentAndArt` for an uncancelled invocation, restricted to the
definition stream (art generation is an independent, interleaved
operation, modelled by `applyFetchStep`): the reset runs first, then the
stream is consumed. -/
def fetchContentAndArt (topic : String) (chunks : List String)
    (streamErr : Option String) (elapsed : Nat) (s : AppState) : AppState :=
  runDefinition topic chunks streamErr elapsed (fetchReset s)

/-- One topic completion: the topic fetched, the chunks the definition
stream delivered, an optional stream-level thrown message, and the
elapsed time. -/
structure FetchInput where
  topic : String
  chunks : List String
  streamErr : Option String
  elapsed : Nat
deriving DecidableEq

/-- A sequence of topic completions applied in order. -/
def runFetches (l : List FetchInput) (s : AppState) : AppState :=
  l.foldl (fun st i => fetchContentAndArt i.topic i.chunks i.streamErr i.elapsed st) s

/-! ## Cancellation model

Every state write of `fetchContentAndArt` is guarded by a check of the
captured `isCancelled` flag: the art `.then` and `.catch` continuations,
each `setContent` in the loop, the `catch` block, and the whole `finally`
block.  A run of the orchestrator is a trace of such write steps, each
paired with the value the flag has when the guard is evaluated; the flag
is set once (by the effect cleanup) and never reset. -/

/-- One guarded write step of `fetchContentAndArt`. -/
inductive FetchStep where
  | setArt (a : AsciiArtData)
  | artFallback
  | emitChunk (c : String)
  | failWith (msg : String)
  | finalize (success : Bool) (elapsed : Nat)
deriving DecidableEq

/-- Apply one write step; the guard skips the write when the captured
cancellation flag is set. -/
def applyFetchStep (isCancelled : Bool) (topic : String) (s : AppState) :
    FetchStep → AppState
  | .setArt a => if isCancelled then s else { s with asciiArt := some a }
  | .artFallback =>
      if isCancelled then s
      else { s with asciiArt := some (createFallbackArt topic) }
  | .emitChunk c =>
      if isCancelled then s else { s with content := s.content ++ c }
  | .failWith msg =>
      if isCancelled then s else { s with error := some msg, content := "" }
  | .finalize success elapsed =>
      if isCancelled then s
      else
        { s with generationTime := some elapsed
                 isLoading := false
                 history := if success then pushHistory topic s.history
                            else s.history }

/-- Run a trace of write steps, each with the cancellation-flag value it
observed. -/
def runFetchTrace (topic : String) (trace : List (Bool × FetchStep))
    (s : AppState) : AppState :=
  trace.foldl (fun st p => applyFetchStep p.1 topic st p.2) s

/-! ## Random topic selection -/

/-- The outcome of the random-word draw: either the external service
returned a word, or it failed and an index into the curated fallback list
was drawn. -/
inductive RandomDraw where
  | api (word : String)
  | fallback (idx : Nat)
deriving DecidableEq

/-- The candidate produced by the draw. -/
def drawnCandidate : RandomDraw → String
  | .api w => w
  | .fallback i => UNIQUE_WORDS.getD i ""

/-- `handleRandom`, restricted to the topic it selects: if the candidate
matches the current topic case-insensitively, a single re-roll from the
curated list (at `rerollIdx`) is used instead. -/
def handleRandomTopic (current : String) (draw : RandomDraw)
    (rerollIdx : Nat) : String :=
  let nextTopic := drawnCandidate draw
  if jsToLower nextTopic = jsToLower current then UNIQUE_WORDS.getD rerollIdx ""
  else nextTopic

/-! ## Search form submission -/

/-- `handleSubmit` of the SearchBar: when the trimmed query is non-empty
and no load is in progress, returns the argument passed to `onSearch`
together with the new value of the input field; otherwise no call is
made. -/
def handleSubmit (query : String) (isLoading : Bool) :
    Option (String × String) :=
  if jsTrim query ≠ "" ∧ isLoading = false then some (jsTrim query, "")
  else none

/-! ## Translation orchestration -/

/-- `handleTranslate` (uncancelled; there is no cancellation flag here):
returns the new state together with a flag recording whether the
translation stream was invoked at all.  Empty content returns
immediately. -/
def handleTranslate (chunks : List String) (streamErr : Option String)
    (s : AppState) : AppState × Bool :=
  if s.content = "" then (s, false)
  else
    let s₁ := { s with isTranslating := true
                       translatedContent := some ""
                       translationError := none }
    match consumeChunks "" chunks with
    | (_, some errChunk) =>
        ({ s₁ with translationError :=
                     some (jsReplaceFirst errChunk "Error: " "")
                   translatedContent := none
                   isTranslating := false }, true)
    | (acc, none) =>
        match streamErr with
        | some msg =>
            ({ s₁ with translationError :=
                         some (jsReplaceFirst msg "Error: " "")
                       translatedContent := none
                       isTranslating := false }, true)
        | none =>
            ({ s₁ with translatedContent := some acc
                       isTranslating := false
                       translatedLanguage :=
                         if acc != "" then some s.targetLanguage
                         else s.translatedLanguage }, true)

/-! ## Auxiliary predicates -/

/-- No two consecutive entries of the list are case-insensitively equal. -/
def noConsecDup : List String → Bool
  | [] => true
  | [_] => true
  | a :: b :: t => (jsToLower a != jsToLower b) && noConsecDup (b :: t)

/-- A spec-worded strip operation: remove the error marker only when it is
a leading prefix (the spec says the surfaced translation message is the
raw message with the leading marker stripped). -/
def specStripLeadingError (m : String) : String :=
  if jsStartsWith m "Error: " then String.mk (m.data.drop 7) else m

/-- A state with stale display and error content but the same history,
topic and target language as the initial state. -/
def staleDisplayState : AppState :=
  { initialState with content := "old words", error := some "old error" }

/-- A state whose current content is non-empty, ready for translation. -/
def translatableState : AppState :=
  { initialState with content := "abc", isLoading := false }

/-! ## Helper lemmas about stream consumption -/

/-- Consuming chunks past the first error chunk ignores everything after
it: the result only depends on the error-free part before the error
chunk. -/
theorem consumeChunks_err (pre : List String) (c : String) (post : List String)
    (hpre : ∀ d ∈ pre, jsStartsWith d "Error:" = false)
    (hc : jsStartsWith c "Error:" = true) :
    ∀ acc, consumeChunks acc (pre ++ c :: post)
      = ((consumeChunks acc pre).1, some c) := by
  induction pre with
  | nil => intro acc; simp [consumeChunks, hc]
  | cons d pre ih =>
      intro acc
      have hd : jsStartsWith d "Error:" = false := hpre d (by simp)
      have hpre' : ∀ e ∈ pre, jsStartsWith e "Error:" = false :=
        fun e he => hpre e (by simp [he])
      simp [consumeChunks, hd, ih hpre']

/-- When no chunk carries the error marker, consumption ends normally. -/
theorem consumeChunks_ok (chunks : List String)
    (h : ∀ d ∈ chunks, jsStartsWith d "Error:" = false) :
    ∀ acc, (consumeChunks acc chunks).2 = none := by
  induction chunks with
  | nil => intro acc; simp [consumeChunks]
  | cons d rest ih =>
      intro acc
      have hd : jsStartsWith d "Error:" = false := h d (by simp)
      have h' : ∀ e ∈ rest, jsStartsWith e "Error:" = false :=
        fun e he => h e (by simp [he])
      simp [consumeChunks, hd, ih h']

/-! ## Claim theorems -/

/-- C1: for every definition stream, a received chunk beginning with the
literal prefix "Error:" aborts accumulation (the chunks after it are
irrelevant to the outcome), the accumulated content is discarded (content
ends up empty), and the displayed error message equals the chunk content
exactly. -/
theorem definition_error_chunk (topic : String) (chunks pre post : List String)
    (c : String) (streamErr : Option String) (elapsed : Nat) (s : AppState)
    (hsplit : chunks = pre ++ c :: post)
    (hpre : ∀ d ∈ pre, jsStartsWith d "Error:" = false)
    (hc : jsStartsWith c "Error:" = true) :
    (fetchContentAndArt topic chunks streamErr elapsed s).error = some c ∧
    (fetchContentAndArt topic chunks streamErr elapsed s).content = "" ∧
    fetchContentAndArt topic chunks streamErr elapsed s
      = fetchContentAndArt topic (pre ++ [c]) streamErr elapsed s := by
  subst hsplit
  have h1 := consumeChunks_err pre c post hpre hc ""
  have h2 := consumeChunks_err pre c [] hpre hc ""
  refine ⟨?_, ?_, ?_⟩ <;>
    simp [fetchContentAndArt, runDefinition, h1, h2, finalizeFetch]

/-- Witness for C1 at the spec's example chunk. -/
theorem definition_error_chunk_witness :
    (fetchContentAndArt "Topic" ["Error: Network down"] none 100
        initialState).error = some "Error: Network down" ∧
    (fetchContentAndArt "Topic" ["Error: Network down"] none 100
        initialState).content = "" := by
  have h := definition_error_chunk "Topic" ["Error: Network down"] [] []
    "Error: Network down" none 100 initialState rfl (by simp) (by decide)
  exact ⟨h.1, h.2.1⟩

/-- A write step whose guard observed the cancellation flag set is a
no-op on the state. -/
theorem applyFetchStep_cancelled (topic : String) (s : AppState) :
    ∀ st : FetchStep, applyFetchStep true topic s st = s := by
  intro st
  cases st <;> simp [applyFetchStep]

/-- A trace consisting solely of cancelled steps changes nothing. -/
theorem runFetchTrace_all_cancelled (topic : String) :
    ∀ (t : List (Bool × FetchStep)) (s : AppState), (∀ p ∈ t, p.1 = true) →
      runFetchTrace topic t s = s := by
  intro t
  induction t with
  | nil => intro s _; rfl
  | cons p t ih =>
      intro s h
      have hp : p.1 = true := h p (by simp)
      show runFetchTrace topic t (applyFetchStep p.1 topic s p.2) = s
      rw [hp, applyFetchStep_cancelled]
      exact ih s fun q hq => h q (by simp [hq])

/-- C3: once the captured cancellation flag is set, every further write
step of the stale fetch is suppressed: the run of a trace whose tail is
entirely cancelled equals the run of its uncancelled part, so no state
field (content, art, error, loading, generation time, history) is written
after cancellation. -/
theorem cancellation_suppresses_writes (topic : String) (s : AppState)
    (t₁ t₂ : List (Bool × FetchStep))
    (hcanc : ∀ p ∈ t₂, p.1 = true) :
    runFetchTrace topic (t₁ ++ t₂) s = runFetchTrace topic t₁ s := by
  unfold runFetchTrace
  rw [List.foldl_append]
  exact runFetchTrace_all_cancelled topic t₂ _ hcanc

/-- Witness for C3: a cancelled failure write leaves the state of the
uncancelled part unchanged. -/
theorem cancellation_suppresses_writes_witness :
    runFetchTrace "T" ([(false, FetchStep.emitChunk "a")]
        ++ [(true, FetchStep.failWith "Error: x")]) initialState
      = runFetchTrace "T" [(false, FetchStep.emitChunk "a")] initialState :=
  cancellation_suppresses_writes "T" initialState
    [(false, FetchStep.emitChunk "a")] [(true, FetchStep.failWith "Error: x")]
    (by decide)

/-- C5: the random-topic action never sets the topic to the current one
on the first draw: whenever the drawn candidate matches the current topic
case-insensitively, exactly one re-roll from the curated fallback list is
used (its result, a member of the curated list, becomes the new topic);
otherwise the drawn candidate itself becomes the new topic, and the only
way the selected topic can match the current topic case-insensitively is
through the re-roll. -/
theorem random_topic_reroll (current : String) (draw : RandomDraw)
    (rerollIdx : Nat) (hlt : rerollIdx < UNIQUE_WORDS.length) :
    (jsToLower (drawnCandidate draw) = jsToLower current →
      handleRandomTopic current draw rerollIdx = UNIQUE_WORDS.getD rerollIdx ""
        ∧ handleRandomTopic current draw rerollIdx ∈ UNIQUE_WORDS) ∧
    (jsToLower (drawnCandidate draw) ≠ jsToLower current →
      handleRandomTopic current draw rerollIdx = drawnCandidate draw) ∧
    (jsToLower (handleRandomTopic current draw rerollIdx) = jsToLower current →
      handleRandomTopic current draw rerollIdx
        = UNIQUE_WORDS.getD rerollIdx "") := by
  have hmem : UNIQUE_WORDS.getD rerollIdx "" ∈ UNIQUE_WORDS := by
    simp only [List.getD_eq_getElem?_getD, List.getElem?_eq_getElem hlt,
      Option.getD_some]
    exact List.getElem_mem hlt
  refine ⟨?_, ?_, ?_⟩
  · intro h
    unfold handleRandomTopic
    rw [if_pos h]
    exact ⟨rfl, hmem⟩
  · intro h
    unfold handleRandomTopic
    rw [if_neg h]
  · intro h
    by_cases hd : jsToLower (drawnCandidate draw) = jsToLower current
    · unfold handleRandomTopic
      rw [if_pos hd]
    · unfold handleRandomTopic at h
      rw [if_neg hd] at h
      exact absurd h hd

set_option maxRecDepth 8192 in
/-- Witness for C5: a case-insensitive match with the current topic is
replaced by the curated-list re-roll. -/
theorem random_topic_reroll_witness :
    handleRandomTopic "balance" (RandomDraw.api "Balance") 5
      = UNIQUE_WORDS.getD 5 "" ∧
    handleRandomTopic "balance" (RandomDraw.api "Balance") 5 ∈ UNIQUE_WORDS := by
  have h := random_topic_reroll "balance" (RandomDraw.api "Balance") 5
    (by decide)
  exact h.1 (by decide)

/-- C6: when art generation fails (uncancelled), the fallback bordered
box for the topic is installed; for the topic
"Supercalifragilisticexpialidocious" the label inside the box is the
topic's first 17 characters, "Supercalifragilis", followed by "...". -/
theorem fallback_art_truncation (s : AppState) :
    (applyFetchStep false "Supercalifragilisticexpialidocious" s
        FetchStep.artFallback).asciiArt
      = some (createFallbackArt "Supercalifragilisticexpialidocious") ∧
    String.mk ("Supercalifragilisticexpialidocious".data.take 17)
      = "Supercalifragilis" ∧
    displayableTopic "Supercalifragilisticexpialidocious"
      = "Supercalifragilis" ++ "..." ∧
    ("Supercalifragilis" : String).length = 17 ∧
    (createFallbackArt "Supercalifragilisticexpialidocious").art
      = "┌──────────────────────┐\n│ Supercalifragilis... │\n└──────────────────────┘" :=
  ⟨by simp [applyFetchStep], by decide, by decide, by decide, by decide⟩

/-- C7: invoking the translate action while the current content is empty
is a no-op: the state is returned unchanged and the translation stream is
not invoked. -/
theorem translate_empty_noop (chunks : List String) (streamErr : Option String)
    (s : AppState) (h : s.content = "") :
    handleTranslate chunks streamErr s = (s, false) := by
  simp [handleTranslate, h]

/-- Witness for C7 at the initial state, whose content is empty. -/
theorem translate_empty_noop_witness :
    handleTranslate ["x"] none initialState = (initialState, false) :=
  translate_empty_noop ["x"] none initialState rfl

/-! ## History invariant lemmas -/

/-- The tail of a consecutive-duplicate-free list is duplicate-free. -/
theorem noConsecDup_tail (a : String) (l : List String)
    (h : noConsecDup (a :: l) = true) : noConsecDup l = true := by
  cases l with
  | nil => rfl
  | cons b t =>
      have := congrArg id h
      simp [noConsecDup, Bool.and_eq_true] at h
      exact h.2

/-- Dropping a prefix preserves freedom from consecutive duplicates. -/
theorem noConsecDup_drop :
    ∀ (n : Nat) (l : List String), noConsecDup l = true →
      noConsecDup (l.drop n) = true := by
  intro n
  induction n with
  | zero => intro l h; exact h
  | succ n ih =>
      intro l h
      cases l with
      | nil => rfl
      | cons a t => exact ih t (noConsecDup_tail a t h)

/-- Appending an entry that differs case-insensitively from the last one
preserves freedom from consecutive duplicates. -/
theorem noConsecDup_append_single :
    ∀ (h : List String) (t : String), noConsecDup h = true →
      h.getLast?.map jsToLower ≠ some (jsToLower t) →
      noConsecDup (h ++ [t]) = true := by
  intro h
  induction h with
  | nil => intro t _ _; rfl
  | cons a h ih =>
      intro t hnc hne
      cases h with
      | nil =>
          simp only [List.getLast?_singleton, Option.map_some'] at hne
          have : jsToLower a ≠ jsToLower t := fun hh => hne (by rw [hh])
          simp [noConsecDup, this]
      | cons b h' =>
          have h1 : jsToLower a != jsToLower b := by
            simp [noConsecDup, Bool.and_eq_true] at hnc
            simp [hnc.1]
          have h2 : noConsecDup ((b :: h') ++ [t]) = true := by
            refine ih t (noConsecDup_tail a _ hnc) ?_
            simpa [List.getLast?_cons_cons] using hne
          show noConsecDup (a :: b :: (h' ++ [t])) = true
          simp only [noConsecDup, Bool.and_eq_true]
          exact ⟨by simpa using h1, h2⟩

/-- pushHistory keeps the history at no more than 15 entries. -/
theorem pushHistory_length_le (topic : String) (h : List String)
    (hlen : h.length ≤ 15) : (pushHistory topic h).length ≤ 15 := by
  unfold pushHistory
  split
  · exact hlen
  · dsimp only
    split
    · simp only [List.length_drop, List.length_append, List.length_singleton]
      omega
    · next hgt =>
      simp only [List.length_append, List.length_singleton] at hgt ⊢
      omega

/-- pushHistory preserves freedom from consecutive case-insensitive
duplicates. -/
theorem pushHistory_noConsecDup (topic : String) (h : List String)
    (hnc : noConsecDup h = true) : noConsecDup (pushHistory topic h) = true := by
  unfold pushHistory
  split
  · exact hnc
  · next hne =>
    have hap : noConsecDup (h ++ [topic]) = true :=
      noConsecDup_append_single h topic hnc hne
    dsimp only
    split
    · exact noConsecDup_drop _ _ hap
    · exact hap

/-- A topic completion either leaves the history unchanged or pushes its
topic onto it. -/
theorem fetchContentAndArt_history (topic : String) (chunks : List String)
    (streamErr : Option String) (elapsed : Nat) (s : AppState) :
    (fetchContentAndArt topic chunks streamErr elapsed s).history = s.history ∨
    (fetchContentAndArt topic chunks streamErr elapsed s).history
      = pushHistory topic s.history := by
  unfold fetchContentAndArt runDefinition
  rcases hc : consumeChunks "" chunks with ⟨acc, e⟩
  cases e with
  | some c => left; simp [finalizeFetch, fetchReset]
  | none =>
      cases streamErr with
      | some msg => left; simp [finalizeFetch, fetchReset]
      | none =>
          cases hacc : (acc != "") with
          | false => left; simp [finalizeFetch, fetchReset, hacc]
          | true => right; simp [finalizeFetch, fetchReset, hacc]

/-- A successful completion (no error chunk, no stream throw, non-empty
accumulated content) pushes its topic onto the history. -/
theorem fetchContentAndArt_history_success (topic : String)
    (chunks : List String) (elapsed : Nat) (s : AppState)
    (hsnd : (consumeChunks "" chunks).2 = none)
    (hne : (consumeChunks "" chunks).1 ≠ "") :
    (fetchContentAndArt topic chunks none elapsed s).history
      = pushHistory topic s.history := by
  unfold fetchContentAndArt runDefinition
  rcases hc : consumeChunks "" chunks with ⟨acc, e⟩
  rw [hc] at hsnd hne
  simp only at hsnd hne
  subst hsnd
  have : (acc != "") = true := by simpa using hne
  simp [finalizeFetch, fetchReset, this]

/-- The history invariant is preserved by every sequence of completions. -/
theorem runFetches_history_inv :
    ∀ (l : List FetchInput) (s : AppState), s.history.length ≤ 15 →
      noConsecDup s.history = true →
      (runFetches l s).history.length ≤ 15 ∧
      noConsecDup (runFetches l s).history = true := by
  intro l
  induction l with
  | nil => intro s h1 h2; exact ⟨h1, h2⟩
  | cons i l ih =>
      intro s h1 h2
      have hstep :=
        fetchContentAndArt_history i.topic i.chunks i.streamErr i.elapsed s
      have hnext :
          (fetchContentAndArt i.topic i.chunks i.streamErr i.elapsed
              s).history.length ≤ 15 ∧
          noConsecDup (fetchContentAndArt i.topic i.chunks i.streamErr
              i.elapsed s).history = true := by
        rcases hstep with h | h <;> rw [h]
        · exact ⟨h1, h2⟩
        · exact ⟨pushHistory_length_le _ _ h1, pushHistory_noConsecDup _ _ h2⟩
      exact ih _ hnext.1 hnext.2

/-- Dropping fewer elements than the length preserves the last element. -/
theorem getLast?_drop_of_lt {α : Type} :
    ∀ (n : Nat) (l : List α), n < l.length → (l.drop n).getLast? = l.getLast? := by
  intro n
  induction n with
  | zero => intro l _; rfl
  | succ n ih =>
      intro l hl
      cases l with
      | nil => simp at hl
      | cons a t =>
          simp only [List.drop_succ_cons]
          have ht : n < t.length := by
            simp only [List.length_cons] at hl
            omega
          rw [ih t ht]
          cases t with
          | nil => simp at ht
          | cons b t' => simp [List.getLast?_cons_cons]

/-- When the topic does not match the last entry, pushHistory appends it:
the topic becomes the last entry and the length grows by one, capped at
15. -/
theorem pushHistory_not_matching (topic : String) (h : List String)
    (hne : h.getLast?.map jsToLower ≠ some (jsToLower topic)) :
    (pushHistory topic h).getLast? = some topic ∧
    (pushHistory topic h).length = min (h.length + 1) 15 := by
  unfold pushHistory
  rw [if_neg hne]
  dsimp only
  split
  · next hgt =>
    simp only [List.length_append, List.length_singleton] at hgt
    constructor
    · rw [getLast?_drop_of_lt]
      · exact List.getLast?_concat h
      · simp only [List.length_append, List.length_singleton]
        omega
    · simp only [List.length_drop, List.length_append, List.length_singleton]
      omega
  · next hle =>
    simp only [List.length_append, List.length_singleton, Nat.not_lt] at hle
    refine ⟨List.getLast?_concat h, ?_⟩
    simp only [List.length_append, List.length_singleton]
    omega

/-- C2: the history is an invariant-preserving state: after any sequence
of topic completions starting from the initial state, the history never
exceeds 15 entries and never holds two consecutive case-insensitive
duplicates; moreover a successful completion with non-empty content
appends its topic (the topic becomes the last entry, capped at 15
entries), skipping the append when the topic equals the last entry
case-insensitively. -/
theorem history_invariant (l : List FetchInput) (s : AppState) (i : FetchInput)
    (hsnd : (consumeChunks "" i.chunks).2 = none)
    (hse : i.streamErr = none)
    (hne : (consumeChunks "" i.chunks).1 ≠ "") :
    (runFetches l initialState).history.length ≤ 15 ∧
    noConsecDup (runFetches l initialState).history = true ∧
    (s.history.getLast?.map jsToLower = some (jsToLower i.topic) →
      (fetchContentAndArt i.topic i.chunks i.streamErr i.elapsed s).history
        = s.history) ∧
    (s.history.getLast?.map jsToLower ≠ some (jsToLower i.topic) →
      (fetchContentAndArt i.topic i.chunks i.streamErr i.elapsed
          s).history.getLast? = some i.topic ∧
      (fetchContentAndArt i.topic i.chunks i.streamErr i.elapsed
          s).history.length = min (s.history.length + 1) 15) := by
  have hinv := runFetches_history_inv l initialState (by simp [initialState])
    (by rfl)
  refine ⟨hinv.1, hinv.2, ?_, ?_⟩
  · intro hmatch
    rw [hse,
      fetchContentAndArt_history_success i.topic i.chunks i.elapsed s hsnd hne]
    unfold pushHistory
    rw [if_pos hmatch]
  · intro hnm
    rw [hse,
      fetchContentAndArt_history_success i.topic i.chunks i.elapsed s hsnd hne]
    exact pushHistory_not_matching i.topic s.history hnm

/-- Witness for C2: a single successful completion appends its topic. -/
theorem history_invariant_witness :
    (runFetches [⟨"Alpha", ["abc"], none, 3⟩] initialState).history.length ≤ 15 ∧
    (fetchContentAndArt "Alpha" ["abc"] none 3 initialState).history.getLast?
      = some "Alpha" := by
  have h := history_invariant [⟨"Alpha", ["abc"], none, 3⟩] initialState
    ⟨"Alpha", ["abc"], none, 3⟩ (by decide) rfl (by decide)
  exact ⟨h.1, (h.2.2.2 (by decide)).1⟩

/-- The reset block makes the resulting state independent of the previous
display, error and translation state. -/
theorem fetchReset_congr (s₁ s₂ : AppState)
    (hh : s₁.history = s₂.history) (ht : s₁.currentTopic = s₂.currentTopic)
    (hl : s₁.targetLanguage = s₂.targetLanguage) :
    fetchReset s₁ = fetchReset s₂ := by
  cases s₁
  cases s₂
  dsimp only at hh ht hl
  subst hh
  subst ht
  subst hl
  rfl

/-- C4: selecting a topic triggers a content reset before any new content
appears: the reset (which runs before the stream is consumed) clears
content, error, art, generation time and the translation output state and
sets loading; consequently the outcome of the fetch is independent of all
previously displayed content, error, art and translation state (it
depends only on the history, the current topic and the selected target
language). -/
theorem topic_reset_before_content (topic : String) (chunks : List String)
    (streamErr : Option String) (elapsed : Nat) (s₁ s₂ : AppState)
    (hh : s₁.history = s₂.history) (ht : s₁.currentTopic = s₂.currentTopic)
    (hl : s₁.targetLanguage = s₂.targetLanguage) :
    (fetchReset s₁).content = "" ∧ (fetchReset s₁).error = none ∧
    (fetchReset s₁).asciiArt = none ∧ (fetchReset s₁).generationTime = none ∧
    (fetchReset s₁).translatedContent = none ∧
    (fetchReset s₁).translationError = none ∧
    (fetchReset s₁).isTranslating = false ∧
    (fetchReset s₁).translatedLanguage = none ∧
    (fetchReset s₁).isLoading = true ∧
    fetchContentAndArt topic chunks streamErr elapsed s₁
      = runDefinition topic chunks streamErr elapsed (fetchReset s₁) ∧
    fetchContentAndArt topic chunks streamErr elapsed s₁
      = fetchContentAndArt topic chunks streamErr elapsed s₂ := by
  refine ⟨rfl, rfl, rfl, rfl, rfl, rfl, rfl, rfl, rfl, rfl, ?_⟩
  unfold fetchContentAndArt
  rw [fetchReset_congr s₁ s₂ hh ht hl]

/-- Witness for C4: two states with the same history, topic and target
language but different stale content and error fetch to the same state. -/
theorem topic_reset_before_content_witness :
    (fetchReset staleDisplayState).content = "" ∧
    fetchContentAndArt "T" ["x"] none 1 staleDisplayState
      = fetchContentAndArt "T" ["x"] none 1 initialState := by
  have h := topic_reset_before_content "T" ["x"] none 1 staleDisplayState
    initialState rfl rfl rfl
  exact ⟨h.1, h.2.2.2.2.2.2.2.2.2.2⟩

/-- C8 counterexample: the claim says the surfaced translation error is
the raw message with the leading "Error: " prefix stripped.  The chunk
"Error:x Error: y" begins with "Error:" (so it is a terminal failure) but
does not begin with "Error: "; the spec-worded stripping therefore leaves
it unchanged, while the code removes the first occurrence of "Error: "
anywhere in the message, surfacing "Error:x y". -/
theorem translation_error_strip_counterexample :
    (handleTranslate ["Error:x Error: y"] none
        translatableState).1.translationError = some "Error:x y" ∧
    specStripLeadingError "Error:x Error: y" = "Error:x Error: y" ∧
    some "Error:x y" ≠ some (specStripLeadingError "Error:x Error: y") := by
  refine ⟨by decide, by decide, by decide⟩

/-- C8 amended: when a translation stream fails (a chunk beginning with
"Error:", or a thrown error), the surfaced translation error message is
the raw message with its first occurrence of the substring "Error: "
removed (in particular the leading "Error: " prefix, when the message
starts with it), any partial translated content is cleared to null, and
the recorded translated-language label is not updated. -/
theorem translation_failure_cleanup (s : AppState) (pre post chunks : List String)
    (c msg : String) (streamErr : Option String)
    (hc : s.content ≠ "") :
    (chunks = pre ++ c :: post →
      (∀ d ∈ pre, jsStartsWith d "Error:" = false) →
      jsStartsWith c "Error:" = true →
      (handleTranslate chunks streamErr s).1.translationError
          = some (jsReplaceFirst c "Error: " "") ∧
      (handleTranslate chunks streamErr s).1.translatedContent = none ∧
      (handleTranslate chunks streamErr s).1.translatedLanguage
          = s.translatedLanguage) ∧
    ((∀ d ∈ chunks, jsStartsWith d "Error:" = false) → streamErr = some msg →
      (handleTranslate chunks streamErr s).1.translationError
          = some (jsReplaceFirst msg "Error: " "") ∧
      (handleTranslate chunks streamErr s).1.translatedContent = none ∧
      (handleTranslate chunks streamErr s).1.translatedLanguage
          = s.translatedLanguage) := by
  constructor
  · intro hsplit hpre herr
    subst hsplit
    have h1 := consumeChunks_err pre c post hpre herr ""
    simp [handleTranslate, hc, h1]
  · intro hok hse
    subst hse
    have h2 := consumeChunks_ok chunks hok ""
    rcases hcc : consumeChunks "" chunks with ⟨acc, e⟩
    rw [hcc] at h2
    simp only at h2
    subst h2
    simp [handleTranslate, hc, hcc]

/-- Witness for C8 at a leading-prefix error chunk. -/
theorem translation_failure_cleanup_witness :
    (handleTranslate ["Error: boom"] none
        translatableState).1.translationError
      = some (jsReplaceFirst "Error: boom" "Error: " "") ∧
    (handleTranslate ["Error: boom"] none
        translatableState).1.translatedContent = none ∧
    jsReplaceFirst "Error: boom" "Error: " "" = "boom" := by
  have h := (translation_failure_cleanup translatableState [] []
      ["Error: boom"] "Error: boom" "" none (by decide)).1 rfl (by simp)
      (by decide)
  exact ⟨h.1, h.2.1, by decide⟩

/-! ## Trim lemmas -/

/-- The head of a dropWhile result does not satisfy the predicate. -/
theorem head_dropWhile_false {α : Type} (p : α → Bool) :
    ∀ (l : List α) (x : α), (l.dropWhile p).head? = some x → p x = false := by
  intro l
  induction l with
  | nil => intro x h; simp [List.dropWhile] at h
  | cons c t ih =>
      intro x h
      cases hpc : p c with
      | true =>
          rw [List.dropWhile_cons_of_pos hpc] at h
          exact ih x h
      | false =>
          rw [List.dropWhile_cons_of_neg (by simp [hpc])] at h
          simp only [List.head?_cons, Option.some.injEq] at h
          subst h
          exact hpc

/-- A non-empty dropWhile result keeps the last element of the list. -/
theorem getLast_dropWhile_eq {α : Type} (p : α → Bool) :
    ∀ l : List α, l.dropWhile p ≠ [] →
      (l.dropWhile p).getLast? = l.getLast? := by
  intro l
  induction l with
  | nil => intro h; simp [List.dropWhile] at h
  | cons c t ih =>
      intro hne
      cases hpc : p c with
      | false => rw [List.dropWhile_cons_of_neg (by simp [hpc])]
      | true =>
          rw [List.dropWhile_cons_of_pos hpc] at hne ⊢
          rw [ih hne]
          cases t with
          | nil => simp [List.dropWhile] at hne
          | cons b t' => simp [List.getLast?_cons_cons]

/-- The first character of a trimmed string is not whitespace. -/
theorem jsTrim_head_not_white (s : String) (ch : Char)
    (h : (jsTrim s).data.head? = some ch) : ch.isWhitespace = false := by
  unfold jsTrim at h
  simp only [List.head?_reverse] at h
  have hne : (s.data.dropWhile Char.isWhitespace).reverse.dropWhile
      Char.isWhitespace ≠ [] := by
    intro hnil
    rw [hnil] at h
    simp at h
  rw [getLast_dropWhile_eq Char.isWhitespace _ hne] at h
  rw [List.getLast?_reverse] at h
  exact head_dropWhile_false Char.isWhitespace _ ch h

/-- The last character of a trimmed string is not whitespace. -/
theorem jsTrim_last_not_white (s : String) (ch : Char)
    (h : (jsTrim s).data.getLast? = some ch) : ch.isWhitespace = false := by
  unfold jsTrim at h
  simp only [List.getLast?_reverse] at h
  exact head_dropWhile_false Char.isWhitespace _ ch h

/-- C9: the search form invokes the search callback only when the trimmed
query is non-empty and no load is in progress; the argument passed is the
trimmed query (whose first and last characters, when present, are not
whitespace) and the input field is cleared to the empty string. -/
theorem search_submit_trimmed (query a r : String) (isLoading : Bool)
    (h : handleSubmit query isLoading = some (a, r)) :
    a = jsTrim query ∧ r = "" ∧ jsTrim query ≠ "" ∧ isLoading = false ∧
    a.data.head?.all (fun ch => !ch.isWhitespace) = true ∧
    a.data.getLast?.all (fun ch => !ch.isWhitespace) = true := by
  unfold handleSubmit at h
  split at h
  · next hcond =>
    simp only [Option.some.injEq, Prod.mk.injEq] at h
    obtain ⟨ha, hr⟩ := h
    subst ha
    subst hr
    refine ⟨rfl, rfl, hcond.1, hcond.2, ?_, ?_⟩
    · cases hh : (jsTrim query).data.head? with
      | none => rfl
      | some ch =>
          simp only [Option.all_some, Bool.not_eq_true']
          exact jsTrim_head_not_white query ch hh
    · cases hh : (jsTrim query).data.getLast? with
      | none => rfl
      | some ch =>
          simp only [Option.all_some, Bool.not_eq_true']
          exact jsTrim_last_not_white query ch hh
  · exact absurd h (by simp)

/-- Witness for C9 on a padded query. -/
theorem search_submit_trimmed_witness :
    "hi" = jsTrim "  hi  " ∧ jsTrim "  hi  " ≠ "" ∧
    ("hi" : String).data.head?.all (fun ch => !ch.isWhitespace) = true := by
  have h := search_submit_trimmed "  hi  " "hi" "" false (by decide)
  exact ⟨h.1, h.2.2.1, h.2.2.2.2.1⟩

/-! ## Fallback-art shape lemmas -/

/-- Splitting a newline-free character list yields that single line. -/
theorem splitLinesAux_no_newline :
    ∀ l : List Char, '\n' ∉ l → splitLinesAux l = [l] := by
  intro l
  induction l with
  | nil => intro _; rfl
  | cons c t ih =>
      intro h
      rw [List.mem_cons, not_or] at h
      obtain ⟨h1, h2⟩ := h
      have hc : ¬ c = '\n' := fun hh => h1 hh.symm
      simp [splitLinesAux, hc, ih h2]

/-- Splitting at the first newline peels off the newline-free part before
it. -/
theorem splitLinesAux_newline :
    ∀ (a : List Char), '\n' ∉ a → ∀ (r : List Char),
      splitLinesAux (a ++ '\n' :: r) = a :: splitLinesAux r := by
  intro a
  induction a with
  | nil => intro _ r; simp [splitLinesAux]
  | cons c a ih =>
      intro h r
      rw [List.mem_cons, not_or] at h
      obtain ⟨h1, h2⟩ := h
      have hc : ¬ c = '\n' := fun hh => h1 hh.symm
      have hrec := ih h2 r
      show splitLinesAux (c :: (a ++ '\n' :: r)) = (c :: a) :: splitLinesAux r
      simp [splitLinesAux, hc, hrec]

/-- A border line (corner, dashes, corner) contains no newline. -/
theorem not_newline_border (m : Nat) (c₁ c₂ : Char) (h₁ : c₁ ≠ '\n')
    (h₂ : c₂ ≠ '\n') : '\n' ∉ c₁ :: (List.replicate m '─' ++ [c₂]) := by
  intro hmem
  rcases List.mem_cons.mp hmem with hh | hh
  · exact h₁ hh.symm
  · rcases List.mem_append.mp hh with hh | hh
    · exact absurd (List.mem_replicate.mp hh).2 (by decide)
    · exact h₂ (List.mem_singleton.mp hh).symm

/-- C10 counterexample: for the topic "line1\nline2" (11 characters, so
no truncation) the fallback art does not consist of three
newline-separated lines — the newline inside the label yields four. -/
theorem fallback_art_newline_counterexample :
    (splitLines (createFallbackArt "line1\nline2").art).length ≠ 3 := by
  decide

/-- C10 amended: for every topic whose display label contains no newline
character, the fallback art consists of exactly three newline-separated
lines of equal character length, namely the display label length plus
four (two border characters and two padding spaces); the label is the
topic itself whenever the topic is at most 20 characters long, and
truncation to the first 17 characters plus "..." happens exactly for
topics strictly longer than 20 characters. -/
theorem fallback_art_shape (topic : String)
    (h : '\n' ∉ (displayableTopic topic).data) :
    (splitLines (createFallbackArt topic).art).length = 3 ∧
    (splitLines (createFallbackArt topic).art).all
      (fun line => line.length == (displayableTopic topic).length + 4) = true ∧
    (topic.length ≤ 20 → displayableTopic topic = topic) ∧
    (20 < topic.length →
      displayableTopic topic = String.mk (topic.data.take 17) ++ "...") := by
  have hpad : (" " ++ displayableTopic topic ++ " ").length
      = (displayableTopic topic).length + 2 := by
    have hsp : (" " : String).length = 1 := rfl
    simp only [String.length_append, hsp]
    omega
  have d1 : ("┌" : String).data = ['┌'] := rfl
  have d2 : ("┐" : String).data = ['┐'] := rfl
  have d3 : ("│" : String).data = ['│'] := rfl
  have d4 : ("└" : String).data = ['└'] := rfl
  have d5 : ("┘" : String).data = ['┘'] := rfl
  have d6 : ("\n" : String).data = ['\n'] := rfl
  have d7 : (" " : String).data = [' '] := rfl
  have hdata : (createFallbackArt topic).art.data
      = ('┌' :: (List.replicate ((displayableTopic topic).length + 2) '─'
            ++ ['┐']))
        ++ '\n' :: (('│' :: ' ' :: ((displayableTopic topic).data
            ++ [' ', '│']))
        ++ '\n' :: ('└' :: (List.replicate
            ((displayableTopic topic).length + 2) '─' ++ ['┘']))) := by
    simp only [createFallbackArt]
    rw [hpad]
    simp [String.data_append, d1, d2, d3, d4, d5, d6, d7, List.append_assoc]
  have hA : '\n' ∉ '┌' :: (List.replicate
      ((displayableTopic topic).length + 2) '─' ++ ['┐']) :=
    not_newline_border _ _ _ (by decide) (by decide)
  have hC : '\n' ∉ '└' :: (List.replicate
      ((displayableTopic topic).length + 2) '─' ++ ['┘']) :=
    not_newline_border _ _ _ (by decide) (by decide)
  have hB : '\n' ∉ '│' :: ' ' :: ((displayableTopic topic).data
      ++ [' ', '│']) := by
    intro hmem
    rcases List.mem_cons.mp hmem with hh | hmem
    · exact absurd hh (by decide)
    rcases List.mem_cons.mp hmem with hh | hmem
    · exact absurd hh (by decide)
    rcases List.mem_append.mp hmem with hh | hh
    · exact h hh
    rcases List.mem_cons.mp hh with hh | hh
    · exact absurd hh (by decide)
    · exact absurd (List.mem_singleton.mp hh) (by decide)
  have hL : (displayableTopic topic).data.length
      = (displayableTopic topic).length := rfl
  have hsplit : splitLinesAux ((createFallbackArt topic).art.data)
      = ['┌' :: (List.replicate ((displayableTopic topic).length + 2) '─'
            ++ ['┐']),
         '│' :: ' ' :: ((displayableTopic topic).data ++ [' ', '│']),
         '└' :: (List.replicate ((displayableTopic topic).length + 2) '─'
            ++ ['┘'])] := by
    rw [hdata, splitLinesAux_newline _ hA, splitLinesAux_newline _ hB,
      splitLinesAux_no_newline _ hC]
  refine ⟨?_, ?_, ?_, ?_⟩
  · simp [splitLines, hsplit]
  · simp only [splitLines, hsplit, List.map_cons, List.map_nil,
      List.all_cons, List.all_nil, String.length_mk, List.length_cons,
      List.length_append, List.length_replicate, List.length_singleton,
      List.length_nil, Bool.and_true, Bool.and_eq_true, beq_iff_eq, hL]
    exact ⟨trivial, trivial, trivial⟩
  · intro h20
    unfold displayableTopic
    rw [if_neg (by omega)]
  · intro h20
    unfold displayableTopic
    rw [if_pos (by omega)]

/-- Witness for C10 on a short, newline-free topic. -/
theorem fallback_art_shape_witness :
    (splitLines (createFallbackArt "Hello").art).length = 3 ∧
    displayableTopic "Hello" = "Hello" := by
  have h := fallback_art_shape "Hello" (by decide)
  exact ⟨h.1, h.2.2.1 (by decide)⟩
